import Mathlib

/-!
Verification of the rust-runes rule engine: a shallow embedding of the
value model, expression AST, evaluator/executor, knowledge base and the
GRL condition parser, with theorems checking the specification's claims.

Modelling conventions, used consistently below:
* Rust `f64` numbers are modelled as rationals (`ℚ`).  IEEE-754 rounding,
  NaN and the infinities are outside this model; the exact-zero test
  `b == 0.0` becomes `b = 0`.  The one claim that is about NaN/infinity
  production is settled against the partial IEEE double model `F64` below,
  which is exact on the special-value arms it exercises.
* Rust `HashMap` is modelled as an association list with unique keys; the
  code only uses lookup, insert/overwrite, remove and value iteration.
* In-place mutation becomes explicit state passing: a function that
  mutates `facts` returns the new fact store (paired with the error when
  the original returns `Result`), so that the store seen by the caller
  after an error is exactly the one the Rust code leaves behind.
-/

namespace Runes

/-- Runtime fact values (facts.rs `FactValue`).  `Number` carries a rational
in place of `f64`; `Object` is the association-list model of
`HashMap<String, FactValue>`. -/
inductive FactValue where
  | string : String → FactValue
  | number : ℚ → FactValue
  | boolean : Bool → FactValue
  | object : List (String × FactValue) → FactValue
  | array : List FactValue → FactValue
  | null : FactValue

/-- facts.rs `FactValue::is_truthy`. -/
def FactValue.is_truthy : FactValue → Bool
  | .boolean b => b
  | .number n => decide (n ≠ 0)
  | .string s => !s.isEmpty
  | .array arr => !arr.isEmpty
  | .object obj => !obj.isEmpty
  | .null => false

/-- First-match lookup in an association list (`HashMap::get`). -/
def assocGet {β : Type} : List (String × β) → String → Option β
  | [], _ => none
  | (k0, v0) :: rest, k => if k0 = k then some v0 else assocGet rest k

/-- Insert/overwrite in an association list (`HashMap::insert`): an existing
key keeps its position, a new key is appended. -/
def assocInsert {β : Type} : List (String × β) → String → β → List (String × β)
  | [], k, v => [(k, v)]
  | (k0, v0) :: rest, k, v =>
    if k0 = k then (k0, v) :: rest else (k0, v0) :: assocInsert rest k v

/-- Removal of the (unique) entry of a key (`HashMap::remove`). -/
def assocRemove {β : Type} : List (String × β) → String → List (String × β)
  | [], _ => []
  | (k0, v0) :: rest, k => if k0 = k then rest else (k0, v0) :: assocRemove rest k

/-- facts.rs `Fact`: a named top-level value. -/
structure Fact where
  name : String
  value : FactValue

/-- facts.rs `Fact::set_field`: insert/overwrite a field when the value is an
object, otherwise the error the Rust code returns. -/
def Fact.set_field (f : Fact) (field_name : String) (value : FactValue) :
    Except String Fact :=
  match f.value with
  | .object obj => .ok { f with value := .object (assocInsert obj field_name value) }
  | _ => .error "Cannot set field on non-object fact"

/-- The caller-supplied mutable fact store `HashMap<String, Fact>`. -/
abbrev Facts := List (String × Fact)

/-- ast.rs `Expression`.  `Variable` is renamed `var` (`variable` is a Lean
keyword); every other constructor keeps the source name. -/
inductive Expression where
  | string : String → Expression
  | number : ℚ → Expression
  | boolean : Bool → Expression
  | var : String → Expression
  | fieldAccess : Expression → String → Expression
  | add : Expression → Expression → Expression
  | subtract : Expression → Expression → Expression
  | multiply : Expression → Expression → Expression
  | divide : Expression → Expression → Expression
  | equal : Expression → Expression → Expression
  | notEqual : Expression → Expression → Expression
  | lessThan : Expression → Expression → Expression
  | lessEqual : Expression → Expression → Expression
  | greaterThan : Expression → Expression → Expression
  | greaterEqual : Expression → Expression → Expression
  | and : Expression → Expression → Expression
  | or : Expression → Expression → Expression
  | not : Expression → Expression
  | assignment : String → Expression → Expression
  | fieldAssignment : String → String → Expression → Expression
  deriving DecidableEq, Repr

/-- engine.rs `EngineError`. -/
inductive EngineError where
  | evaluationError : String → EngineError
  | unknownVariable : String → EngineError
  | typeError : String → EngineError
  | divisionByZero : EngineError
  deriving DecidableEq, Repr

/-- engine.rs `RuleEngine::values_equal`. -/
def values_equal (left right : FactValue) : Bool :=
  match left, right with
  | .string a, .string b => a == b
  | .number a, .number b => a == b
  | .boolean a, .boolean b => a == b
  | .null, .null => true
  | _, _ => false

/-- engine.rs `RuleEngine::evaluate_expression`. -/
def evaluate_expression (expr : Expression) (facts : Facts) :
    Except EngineError FactValue :=
  match expr with
  | .string s => .ok (.string s)
  | .number n => .ok (.number n)
  | .boolean b => .ok (.boolean b)
  | .var name =>
    match assocGet facts name with
    | some fact => .ok fact.value
    | none => .error (.unknownVariable name)
  | .fieldAccess obj_expr field =>
    match evaluate_expression obj_expr facts with
    | .error e => .error e
    | .ok (.object obj) =>
      match assocGet obj field with
      | some v => .ok v
      | none => .error (.evaluationError ("Field '" ++ field ++ "' not found"))
    | .ok _ => .error (.typeError "Cannot access field on non-object")
  | .add l r =>
    match evaluate_expression l facts with
    | .error e => .error e
    | .ok lv =>
      match evaluate_expression r facts with
      | .error e => .error e
      | .ok rv =>
        match lv, rv with
        | .number a, .number b => .ok (.number (a + b))
        | .string a, .string b => .ok (.string (a ++ b))
        | _, _ => .error (.typeError "Cannot add these types")
  | .subtract l r =>
    match evaluate_expression l facts with
    | .error e => .error e
    | .ok lv =>
      match evaluate_expression r facts with
      | .error e => .error e
      | .ok rv =>
        match lv, rv with
        | .number a, .number b => .ok (.number (a - b))
        | _, _ => .error (.typeError "Cannot subtract these types")
  | .multiply l r =>
    match evaluate_expression l facts with
    | .error e => .error e
    | .ok lv =>
      match evaluate_expression r facts with
      | .error e => .error e
      | .ok rv =>
        match lv, rv with
        | .number a, .number b => .ok (.number (a * b))
        | _, _ => .error (.typeError "Cannot multiply these types")
  | .divide l r =>
    match evaluate_expression l facts with
    | .error e => .error e
    | .ok lv =>
      match evaluate_expression r facts with
      | .error e => .error e
      | .ok rv =>
        match lv, rv with
        | .number a, .number b =>
          if b = 0 then .error .divisionByZero else .ok (.number (a / b))
        | _, _ => .error (.typeError "Cannot divide these types")
  | .equal l r =>
    match evaluate_expression l facts with
    | .error e => .error e
    | .ok lv =>
      match evaluate_expression r facts with
      | .error e => .error e
      | .ok rv => .ok (.boolean (values_equal lv rv))
  | .notEqual l r =>
    match evaluate_expression l facts with
    | .error e => .error e
    | .ok lv =>
      match evaluate_expression r facts with
      | .error e => .error e
      | .ok rv => .ok (.boolean (!values_equal lv rv))
  | .lessThan l r =>
    match evaluate_expression l facts with
    | .error e => .error e
    | .ok lv =>
      match evaluate_expression r facts with
      | .error e => .error e
      | .ok rv =>
        match lv, rv with
        | .number a, .number b => .ok (.boolean (decide (a < b)))
        | _, _ => .error (.typeError "Cannot compare these types")
  | .lessEqual l r =>
    match evaluate_expression l facts with
    | .error e => .error e
    | .ok lv =>
      match evaluate_expression r facts with
      | .error e => .error e
      | .ok rv =>
        match lv, rv with
        | .number a, .number b => .ok (.boolean (decide (a ≤ b)))
        | _, _ => .error (.typeError "Cannot compare these types")
  | .greaterThan l r =>
    match evaluate_expression l facts with
    | .error e => .error e
    | .ok lv =>
      match evaluate_expression r facts with
      | .error e => .error e
      | .ok rv =>
        match lv, rv with
        | .number a, .number b => .ok (.boolean (decide (a > b)))
        | _, _ => .error (.typeError "Cannot compare these types")
  | .greaterEqual l r =>
    match evaluate_expression l facts with
    | .error e => .error e
    | .ok lv =>
      match evaluate_expression r facts with
      | .error e => .error e
      | .ok rv =>
        match lv, rv with
        | .number a, .number b => .ok (.boolean (decide (a ≥ b)))
        | _, _ => .error (.typeError "Cannot compare these types")
  | .and l r =>
    match evaluate_expression l facts with
    | .error e => .error e
    | .ok lv =>
      match evaluate_expression r facts with
      | .error e => .error e
      | .ok rv => .ok (.boolean (lv.is_truthy && rv.is_truthy))
  | .or l r =>
    match evaluate_expression l facts with
    | .error e => .error e
    | .ok lv =>
      match evaluate_expression r facts with
      | .error e => .error e
      | .ok rv => .ok (.boolean (lv.is_truthy || rv.is_truthy))
  | .not e =>
    match evaluate_expression e facts with
    | .error err => .error err
    | .ok v => .ok (.boolean (!v.is_truthy))
  | .assignment _ _ => .error (.evaluationError "Unsupported expression type")
  | .fieldAssignment _ _ _ => .error (.evaluationError "Unsupported expression type")

/-- engine.rs `RuleEngine::evaluate_condition`. -/
def evaluate_condition (expr : Expression) (facts : Facts) :
    Except EngineError Bool :=
  match evaluate_expression expr facts with
  | .error e => .error e
  | .ok v => .ok v.is_truthy

/-- engine.rs `RuleEngine::execute_action`.  The Rust function mutates
`facts` in place and returns `Result<(), EngineError>`; every arm evaluates
read-only first and mutates only on success, so on error the incoming store
is returned unchanged by the model, exactly as the Rust store is left. -/
def execute_action (action : Expression) (facts : Facts) :
    Except EngineError Facts :=
  match action with
  | .assignment var_name value_expr =>
    match evaluate_expression value_expr facts with
    | .error e => .error e
    | .ok v => .ok (assocInsert facts var_name ⟨var_name, v⟩)
  | .fieldAssignment obj_name field_name value_expr =>
    match evaluate_expression value_expr facts with
    | .error e => .error e
    | .ok v =>
      match assocGet facts obj_name with
      | some fact =>
        match fact.set_field field_name v with
        | .ok fact2 => .ok (assocInsert facts obj_name fact2)
        | .error msg => .error (.evaluationError msg)
      | none => .error (.unknownVariable obj_name)
  | _ => .error (.evaluationError "Invalid action expression")

/-- rule.rs `Rule`.  `salience` is `i32` in the source; no claim involves
overflow, so it is modelled as `Int`. -/
structure Rule where
  name : String
  description : Option String
  salience : Int
  when_condition : Expression
  then_actions : List Expression
  deriving DecidableEq, Repr

/-- The action loop of engine.rs `RuleEngine::execute` (lines 72-74): run the
actions in listed order, stopping at the first error; the returned store is
the one the in-place mutation has produced so far. -/
def run_actions (actions : List Expression) (facts : Facts) :
    Except EngineError Unit × Facts :=
  match actions with
  | [] => (.ok (), facts)
  | a :: rest =>
    match execute_action a facts with
    | .error e => (.error e, facts)
    | .ok facts2 => run_actions rest facts2

/-- The rule loop of engine.rs `RuleEngine::execute` (lines 69-77): evaluate
each guard against the current store, execute the actions of a truthy rule,
append the fired name, and abort on the first evaluator error. -/
def run_rules (rules : List Rule) (facts : Facts) (fired : List String) :
    Except EngineError (List String) × Facts :=
  match rules with
  | [] => (.ok fired, facts)
  | rule :: rest =>
    match evaluate_condition rule.when_condition facts with
    | .error e => (.error e, facts)
    | .ok true =>
      match run_actions rule.then_actions facts with
      | (.error e, facts2) => (.error e, facts2)
      | (.ok _, facts2) => run_rules rest facts2 (fired ++ [rule.name])
    | .ok false => run_rules rest facts fired

/-- engine.rs `ExecutionResult`.  `execution_time_ms` is elapsed wall-clock
time and outside the model; `facts_modified` is declared but never populated
by the code. -/
structure ExecutionResult where
  rules_fired : List String
  facts_modified : List String
  deriving DecidableEq, Repr

/-- knowledge_base.rs `KnowledgeBase`: backing rule sequence plus the
name-to-position index. -/
structure KnowledgeBase where
  rules : List Rule
  rule_index : List (String × Nat)
  deriving DecidableEq, Repr

/-- knowledge_base.rs `KnowledgeBase::new`. -/
def KnowledgeBase.new : KnowledgeBase := ⟨[], []⟩

/-- knowledge_base.rs `KnowledgeBase::add_rule`.  The Rust method mutates
`self` and returns `Result<(), String>`; the model pairs that result with the
(possibly unchanged) knowledge base. -/
def KnowledgeBase.add_rule (kb : KnowledgeBase) (rule : Rule) :
    Except String Unit × KnowledgeBase :=
  if (assocGet kb.rule_index rule.name).isSome then
    (.error ("Rule '" ++ rule.name ++ "' already exists"), kb)
  else
    (.ok (), ⟨kb.rules ++ [rule], assocInsert kb.rule_index rule.name kb.rules.length⟩)

/-- knowledge_base.rs `KnowledgeBase::get_rule`. -/
def KnowledgeBase.get_rule (kb : KnowledgeBase) (name : String) : Option Rule :=
  (assocGet kb.rule_index name).bind fun index => kb.rules[index]?

/-- The descending-salience comparison passed to `sort_by` in
knowledge_base.rs line 38 (`b.salience.cmp(&a.salience)` orders higher
salience first). -/
def salience_desc (a b : Rule) : Bool := decide (b.salience ≤ a.salience)

/-- knowledge_base.rs `KnowledgeBase::get_rules_sorted_by_salience`.  Rust's
`sort_by` is a stable sort; a stable sort's output is uniquely determined by
the input and the comparator, so the stable `List.mergeSort` is an exact
model. -/
def KnowledgeBase.get_rules_sorted_by_salience (kb : KnowledgeBase) : List Rule :=
  kb.rules.mergeSort salience_desc

/-- The index update of knowledge_base.rs lines 48-52: a recorded position
after the removed one is shifted down by one. -/
def shiftDown (index v : Nat) : Nat := if index < v then v - 1 else v

/-- knowledge_base.rs `KnowledgeBase::remove_rule`: remove the indexed rule
and shift every recorded position after it down by one.  `Vec::remove` would
panic on an out-of-range index; that (unreachable under the index invariant)
case is modelled as `none` with the knowledge base unchanged. -/
def KnowledgeBase.remove_rule (kb : KnowledgeBase) (name : String) :
    Option Rule × KnowledgeBase :=
  match assocGet kb.rule_index name with
  | none => (none, kb)
  | some index =>
    match kb.rules[index]? with
    | none => (none, kb)
    | some rule =>
      (some rule,
        ⟨kb.rules.eraseIdx index,
         (assocRemove kb.rule_index name).map
           (fun p => (p.1, shiftDown index p.2))⟩)

/-- knowledge_base.rs `KnowledgeBase::len`. -/
def KnowledgeBase.len (kb : KnowledgeBase) : Nat := kb.rules.length

/-- engine.rs `RuleEngine::execute`: snapshot the salience-sorted rules, run
the single pass, and on success wrap the fired names in an
`ExecutionResult` (with `facts_modified` left empty, as in the code).  The
second component is the caller's fact store after the call, in both the
success and the error case. -/
def RuleEngine.execute (kb : KnowledgeBase) (facts : Facts) :
    Except EngineError ExecutionResult × Facts :=
  match run_rules kb.get_rules_sorted_by_salience facts [] with
  | (.ok fired, facts2) => (.ok ⟨fired, []⟩, facts2)
  | (.error e, facts2) => (.error e, facts2)

/-! ## DSL parser (parser.rs)

Condition texts are modelled as `List Char` (`String.data`); the public
wrappers below take `String`.  The recursions of `parse_condition` and
`parse_value` split their input at a separator and recurse on strictly
shorter pieces; to keep every definition kernel-reducible they take a fuel
argument bounded below by the input length (one character is consumed per
recursive step, so the fuel never runs out; `parseCondF_congr` proves the
fuel is irrelevant once sufficient). -/

/-- Rust `str::find(pat)` on char lists: index of the first occurrence. -/
def findSub : List Char → List Char → Option Nat
  | [], pat => if pat.isEmpty then some 0 else none
  | c :: rest, pat =>
    if pat.isPrefixOf (c :: rest) then some 0
    else (findSub rest pat).map (· + 1)

/-- Rust `str::rfind(pat)` on char lists: index of the last occurrence. -/
def rfindSub : List Char → List Char → Option Nat
  | [], pat => if pat.isEmpty then some 0 else none
  | c :: rest, pat =>
    match rfindSub rest pat with
    | some p => some (p + 1)
    | none => if pat.isPrefixOf (c :: rest) then some 0 else none

/-- Rust `str::trim` on char lists (whitespace stripped from both ends). -/
def trimChars (cs : List Char) : List Char :=
  ((cs.dropWhile Char.isWhitespace).reverse.dropWhile Char.isWhitespace).reverse

/-- The regex word class `\w` (ASCII fragment: letters, digits, underscore). -/
def wordChar (c : Char) : Bool := c.isAlphanum || c == '_'

/-- Greedy `(?:\.\w+)*` of the condition regex: the consumed characters and
the remainder.  The fuel is bounded below by the input length; each step
consumes at least two characters. -/
def dotGroupsF : Nat → List Char → List Char × List Char
  | 0, cs => ([], cs)
  | fuel + 1, cs =>
    match cs with
    | '.' :: rest =>
      let w := rest.takeWhile wordChar
      if w.isEmpty then ([], cs)
      else
        let (more, after) := dotGroupsF fuel (rest.drop w.length)
        ('.' :: (w ++ more), after)
    | _ => ([], cs)

def dotGroups (cs : List Char) : List Char × List Char := dotGroupsF cs.length cs

/-- The terminator group `(?:\s+&&|\s+\|\||$)` of the condition regex,
checked at the position following the lazy rhs group.  `\s+` is a maximal
whitespace run (no shorter run can be followed by `&&` or `||`, which are
not whitespace), so the check is deterministic. -/
def condTerminator (rest : List Char) : Bool :=
  rest.isEmpty ||
    (let ws := rest.takeWhile Char.isWhitespace
     !ws.isEmpty &&
       ((rest.drop ws.length).take 2 == ['&', '&'] ||
        (rest.drop ws.length).take 2 == ['|', '|']))

/-- The lazy group `(.+?)` of the condition regex: the shortest non-empty
prefix of newline-free characters after which the terminator matches. -/
def findRhs : List Char → Option (List Char)
  | [] => none
  | c :: rest =>
    if c == '\n' then none
    else if condTerminator rest then some [c]
    else (findRhs rest).map (c :: ·)

/-- Backtracking over the `\s*` before the lazy rhs group: the greedy choice
(skip `k` whitespace characters) is tried first, shorter skips on failure. -/
def spacesRhsGo (cs : List Char) : Nat → Option (List Char)
  | 0 => findRhs cs
  | k + 1 =>
    match findRhs (cs.drop (k + 1)) with
    | some rhs => some rhs
    | none => spacesRhsGo cs k

def spacesRhs (cs : List Char) : Option (List Char) :=
  spacesRhsGo cs (cs.takeWhile Char.isWhitespace).length

/-- The operator alternation `(==|!=|<|<=|>|>=)` in its written order; an
alternative whose continuation fails is abandoned for the next one, as the
backtracking regex engine does (so `<=` is reachable only when `<` fails). -/
def opAlternatives : List (List Char) :=
  [['=', '='], ['!', '='], ['<'], ['<', '='], ['>'], ['>', '=']]

def tryOps (cs : List Char) : List (List Char) → Option (List Char × List Char)
  | [] => none
  | op :: rest =>
    if op.isPrefixOf cs then
      match spacesRhs (cs.drop op.length) with
      | some rhs => some (op, rhs)
      | none => tryOps cs rest
    else tryOps cs rest

/-- One attempt of the condition regex
`(\w+(?:\.\w+)*)\s*(==|!=|<|<=|>|>=)\s*(.+?)(?:\s+&&|\s+\|\||$)` at the
start of `cs`, returning the three capture groups.  `\w+` and `(?:\.\w+)*`
are maximal and the `\s*` before the operator is maximal: any shorter match
leaves a word character, a dot or a whitespace character where only an
operator character may stand, so no backtracking into those groups can
succeed and the greedy choice is exact. -/
def matchAt (cs : List Char) : Option (List Char × List Char × List Char) :=
  let w := cs.takeWhile wordChar
  if w.isEmpty then none
  else
    let (dots, after) := dotGroups (cs.drop w.length)
    let afterSp := after.dropWhile Char.isWhitespace
    (tryOps afterSp opAlternatives).map fun p => (w ++ dots, p.1, p.2)

/-- `Regex::captures` of the condition pattern: the leftmost start position
at which the pattern matches. -/
def condCaptures : List Char → Option (List Char × List Char × List Char)
  | [] => none
  | c :: rest =>
    match matchAt (c :: rest) with
    | some r => some r
    | none => condCaptures rest

/-- The value of a digit run read in base 10. -/
def digitsVal (cs : List Char) : Nat :=
  cs.foldl (fun acc c => acc * 10 + (c.toNat - 48)) 0

/-- The exponent tail of a float literal: optional sign, then digits. -/
def expVal (cs : List Char) : Option Int :=
  match cs with
  | [] => none
  | c :: rest =>
    let sd : Int × List Char :=
      if c == '+' then (1, rest) else if c == '-' then (-1, rest) else (1, cs)
    if sd.2.isEmpty || !sd.2.all Char.isDigit then none
    else some (sd.1 * (digitsVal sd.2 : Int))

/-- Rust `"...".parse::<f64>()` restricted to finite decimal notation (sign,
digits, optional fraction, optional exponent), read exactly into ℚ.  The
`inf`/`infinity`/`nan` spellings and IEEE rounding lie outside the rational
number model; no claim involves them. -/
def parseF64 (cs : List Char) : Option ℚ :=
  let sb : Bool × List Char :=
    match cs with
    | '+' :: rest => (false, rest)
    | '-' :: rest => (true, rest)
    | _ => (false, cs)
  let ip := sb.2.takeWhile Char.isDigit
  let core : Option ℚ :=
    match sb.2.drop ip.length with
    | [] => if ip.isEmpty then none else some (digitsVal ip : ℚ)
    | '.' :: rest =>
      let fp := rest.takeWhile Char.isDigit
      if ip.isEmpty && fp.isEmpty then none
      else
        let base : ℚ := (digitsVal ip : ℚ) + (digitsVal fp : ℚ) / (10 : ℚ) ^ fp.length
        match rest.drop fp.length with
        | [] => some base
        | 'e' :: etail => (expVal etail).map fun e => base * (10 : ℚ) ^ e
        | 'E' :: etail => (expVal etail).map fun e => base * (10 : ℚ) ^ e
        | _ => none
    | 'e' :: etail =>
      if ip.isEmpty then none
      else (expVal etail).map fun e => (digitsVal ip : ℚ) * (10 : ℚ) ^ e
    | 'E' :: etail =>
      if ip.isEmpty then none
      else (expVal etail).map fun e => (digitsVal ip : ℚ) * (10 : ℚ) ^ e
    | _ => none
  core.map fun q => if sb.1 then -q else q

/-- parser.rs `GrlParser::parse_variable_or_field`: split at the first dot
into object and field, else a bare variable. -/
def parse_variable_or_field (cs : List Char) : Expression :=
  match cs.findIdx? (· == '.') with
  | some p =>
    .fieldAccess (.var (String.mk (cs.take p))) (String.mk (cs.drop (p + 1)))
  | none => .var (String.mk cs)

/-- parser.rs `GrlParser::parse_value`, fuel-indexed.  The branches are tried
in source order: float literal, booleans, quoted string, identifier/dotted
field, split at the last " + ".  A lone `"` makes the Rust slice
`trimmed[1..len-1]` panic; the length guard keeps the model total and that
corner is reached by no claim. -/
def parseValF : Nat → List Char → Except String Expression
  | 0, cs => .error ("Cannot parse value: " ++ String.mk cs)
  | fuel + 1, cs =>
    let trimmed := trimChars cs
    match parseF64 trimmed with
    | some q => .ok (.number q)
    | none =>
      if trimmed = "true".data then .ok (.boolean true)
      else if trimmed = "false".data then .ok (.boolean false)
      else if trimmed.head? = some '"' && trimmed.getLast? = some '"' &&
          2 ≤ trimmed.length then
        .ok (.string (String.mk (trimmed.drop 1).dropLast))
      else if trimmed.all (fun c => c.isAlphanum || c == '.' || c == '_') then
        .ok (parse_variable_or_field trimmed)
      else
        match rfindSub trimmed (" + ".data) with
        | some p =>
          match parseValF fuel (trimmed.take p) with
          | .error e => .error e
          | .ok l =>
            match parseValF fuel (trimmed.drop (p + 3)) with
            | .error e => .error e
            | .ok r => .ok (.add l r)
        | none => .error ("Cannot parse value: " ++ String.mk trimmed)

def parse_value (cs : List Char) : Except String Expression :=
  parseValF (cs.length + 1) cs

/-- parser.rs `GrlParser::parse_condition`, fuel-indexed: split at the first
" && ", else at the first " || ", else match the comparison regex, parse the
trimmed rhs capture with the value grammar and dispatch on the operator
capture. -/
def parseCondF : Nat → List Char → Except String Expression
  | 0, cs => .error ("Cannot parse condition: " ++ String.mk cs)
  | fuel + 1, cs =>
    match findSub (trimChars cs) (" && ".data) with
    | some and_pos =>
      match parseCondF fuel ((trimChars cs).take and_pos) with
      | .error e => .error e
      | .ok l =>
        match parseCondF fuel ((trimChars cs).drop (and_pos + 4)) with
        | .error e => .error e
        | .ok r => .ok (.and l r)
    | none =>
      match findSub (trimChars cs) (" || ".data) with
      | some or_pos =>
        match parseCondF fuel ((trimChars cs).take or_pos) with
        | .error e => .error e
        | .ok l =>
          match parseCondF fuel ((trimChars cs).drop (or_pos + 4)) with
          | .error e => .error e
          | .ok r => .ok (.or l r)
      | none =>
        match condCaptures (trimChars cs) with
        | some (lhs, op, rhs) =>
          match parse_value (trimChars rhs) with
          | .error e => .error e
          | .ok right_expr =>
            if op = "==".data then
              .ok (.equal (parse_variable_or_field lhs) right_expr)
            else if op = "!=".data then
              .ok (.notEqual (parse_variable_or_field lhs) right_expr)
            else if op = "<".data then
              .ok (.lessThan (parse_variable_or_field lhs) right_expr)
            else if op = "<=".data then
              .ok (.lessEqual (parse_variable_or_field lhs) right_expr)
            else if op = ">".data then
              .ok (.greaterThan (parse_variable_or_field lhs) right_expr)
            else if op = ">=".data then
              .ok (.greaterEqual (parse_variable_or_field lhs) right_expr)
            else .error ("Unknown operator: " ++ String.mk op)
        | none => .error ("Cannot parse condition: " ++ String.mk (trimChars cs))

def parseCondChars (cs : List Char) : Except String Expression :=
  parseCondF (cs.length + 1) cs

/-- parser.rs `GrlParser::parse_condition` on strings. -/
def GrlParser.parse_condition (s : String) : Except String Expression :=
  parseCondChars s.data

deriving instance DecidableEq for Except

/-- A knowledge-base mutation: the two public mutating operations. -/
inductive KBOp where
  | add : Rule → KBOp
  | remove : String → KBOp
  deriving DecidableEq, Repr

/-- Apply one mutation, discarding the returned value as a caller that
ignores the `Result`/`Option` does. -/
def applyOp (kb : KnowledgeBase) (op : KBOp) : KnowledgeBase :=
  match op with
  | .add r => (kb.add_rule r).2
  | .remove n => (kb.remove_rule n).2

/-- The knowledge base reached from `new` by a sequence of operations. -/
def buildKB (ops : List KBOp) : KnowledgeBase :=
  ops.foldl applyOp KnowledgeBase.new

/-- Consistency of the name-to-position index with the backing sequence:
index keys are unique, every index entry points at the rule bearing its
name, and every stored position is indexed under its rule's name. -/
def KnowledgeBase.Wf (kb : KnowledgeBase) : Prop :=
  (kb.rule_index.map Prod.fst).Nodup ∧
  (∀ name i, assocGet kb.rule_index name = some i →
    ∃ r, kb.rules[i]? = some r ∧ r.name = name) ∧
  (∀ i r, kb.rules[i]? = some r → assocGet kb.rule_index r.name = some i)

/-- The pattern `pat` occurs in `cs` at position `p`. -/
def hasSubAt (cs pat : List Char) (p : Nat) : Prop :=
  p + pat.length ≤ cs.length ∧ (cs.drop p).take pat.length = pat

/-- `p` is the first occurrence of `pat` in `cs`. -/
def firstSubAt (cs pat : List Char) (p : Nat) : Prop :=
  hasSubAt cs pat p ∧ ∀ q, q < p → ¬ hasSubAt cs pat q

instance (cs pat : List Char) (p : Nat) : Decidable (hasSubAt cs pat p) := by
  unfold hasSubAt
  infer_instance

instance (cs pat : List Char) (p : Nat) : Decidable (firstSubAt cs pat p) := by
  unfold firstSubAt
  infer_instance

/-- The variants on which `values_equal` applies structural equality
(engine.rs lines 283-286: String, Number, Boolean, Null). -/
def isPrimitive : FactValue → Bool
  | .string _ => true
  | .number _ => true
  | .boolean _ => true
  | .null => true
  | _ => false

/-- The IEEE-754 double value space, kept alongside the ℚ model for the one
claim that concerns NaN and infinity production (values the ℚ model erases).
A finite double is carried as its exact rational value; the two signed zeros
collapse to `finite 0`. -/
inductive F64 where
  | finite : ℚ → F64
  | inf : F64
  | neginf : F64
  | nan : F64
  deriving DecidableEq, Repr

/-- The Rust test `b == 0.0` on doubles: NaN compares unequal to everything
(also to 0.0), the infinities are nonzero, and a finite double equals 0.0
exactly when its value is 0 (both signed zeros do). -/
def F64.eqZero : F64 → Bool
  | .finite q => q == 0
  | _ => false

/-- IEEE-754 division of doubles, exact on every special-value arm: a NaN
operand propagates to NaN, infinity by infinity is NaN, infinity by a finite
value is a (sign-adjusted) infinity, a finite value by an infinity is zero,
and a nonzero finite value by zero is a signed infinity (zero by zero NaN).
Only the nonzero-finite by nonzero-finite arm is approximate: it carries the
exact quotient, eliding IEEE rounding and overflow — the real operation can
additionally overflow to an infinity there, which only adds NaN/Inf
production paths.  Signs taken from the collapsed zero follow `+0.0`. -/
def F64.div : F64 → F64 → F64
  | .nan, _ => .nan
  | _, .nan => .nan
  | .inf, .inf => .nan
  | .inf, .neginf => .nan
  | .neginf, .inf => .nan
  | .neginf, .neginf => .nan
  | .inf, .finite q => if q < 0 then .neginf else .inf
  | .neginf, .finite q => if q < 0 then .inf else .neginf
  | .finite _, .inf => .finite 0
  | .finite _, .neginf => .finite 0
  | .finite a, .finite b =>
    if b = 0 then
      if a = 0 then .nan else if a < 0 then .neginf else .inf
    else .finite (a / b)

/-- The (Number, Number) arm of Divide in engine.rs lines 153-160, over IEEE
doubles: the error exactly when the Rust test `b == 0.0` holds, otherwise
the IEEE quotient. -/
def evaluate_divide_f64 (a b : F64) : Except EngineError F64 :=
  if F64.eqZero b then .error .divisionByZero else .ok (F64.div a b)

/-! ## Claims about the evaluator -/

/-- C3 (amended): dividing two Number operands fails with DivisionByZero
exactly when the Rust test `b == 0.0` holds and otherwise yields their
quotient; any other operand pairing fails with TypeError.  The zero-divisor
guard does not preclude NaN or infinity production by Divide: over IEEE
doubles a NaN dividend passes `b == 0.0` (NaN compares unequal to
everything) and the guarded division returns Number(NaN). -/
theorem divide_dispatch_spec (l r : Expression) (facts : Facts) :
    (∀ a b : ℚ, evaluate_expression l facts = .ok (.number a) →
      evaluate_expression r facts = .ok (.number b) →
      evaluate_expression (.divide l r) facts =
        if b = 0 then .error .divisionByZero else .ok (.number (a / b))) ∧
    (∀ vl vr : FactValue, evaluate_expression l facts = .ok vl →
      evaluate_expression r facts = .ok vr →
      (¬ ∃ a b : ℚ, vl = .number a ∧ vr = .number b) →
      evaluate_expression (.divide l r) facts =
        .error (.typeError "Cannot divide these types")) ∧
    (∀ b : F64, F64.eqZero b = false →
      evaluate_divide_f64 .nan b = .ok .nan) := by
  refine ⟨?_, ?_, ?_⟩
  · intro a b hl hr
    simp [evaluate_expression, hl, hr]
  · intro vl vr hl hr hnn
    simp only [evaluate_expression, hl, hr]
    cases vl <;> cases vr <;> try rfl
    exact absurd ⟨_, _, rfl, rfl⟩ hnn
  · intro b hb
    simp [evaluate_divide_f64, hb, F64.div]

/-- Witness for C3 at a zero divisor and at a NaN dividend. -/
theorem divide_dispatch_spec_witness :
    evaluate_expression (.divide (.number 6) (.number 0)) [] =
      .error .divisionByZero ∧
    evaluate_divide_f64 .nan (.finite 2) = .ok .nan := by
  constructor
  · have h := (divide_dispatch_spec (.number 6) (.number 0) []).1 6 0 rfl rfl
    rwa [if_pos rfl] at h
  · exact (divide_dispatch_spec (.number 6) (.number 0) []).2.2 (.finite 2)
      (by decide)

/-- Counterexample to C3's conjunct that no evaluation of Divide produces a
NaN or infinite Number: with the divisor 2.0 (so the `b == 0.0` guard does
not fire) a NaN dividend makes the guarded Number/Number division of Divide
return Number(NaN).  The corresponding Rust run is
`Divide(Number(f64::NAN), Number(2.0))`, which evaluates to `Number(NaN)`
because `f64::NAN == 0.0` is false. -/
theorem divide_nan_production_counterexample :
    F64.eqZero (.finite 2) = false ∧
    evaluate_divide_f64 .nan (.finite 2) = .ok .nan := by
  constructor
  · decide
  · decide

/-- C4: Add of two Numbers is their sum, Add of two Strings their
concatenation, and every other pairing fails with TypeError. -/
theorem add_overload_spec (l r : Expression) (facts : Facts) :
    (∀ a b : ℚ, evaluate_expression l facts = .ok (.number a) →
      evaluate_expression r facts = .ok (.number b) →
      evaluate_expression (.add l r) facts = .ok (.number (a + b))) ∧
    (∀ a b : String, evaluate_expression l facts = .ok (.string a) →
      evaluate_expression r facts = .ok (.string b) →
      evaluate_expression (.add l r) facts = .ok (.string (a ++ b))) ∧
    (∀ vl vr : FactValue, evaluate_expression l facts = .ok vl →
      evaluate_expression r facts = .ok vr →
      (¬ ∃ a b : ℚ, vl = .number a ∧ vr = .number b) →
      (¬ ∃ a b : String, vl = .string a ∧ vr = .string b) →
      evaluate_expression (.add l r) facts =
        .error (.typeError "Cannot add these types")) := by
  refine ⟨fun a b hl hr => ?_, fun a b hl hr => ?_, fun vl vr hl hr hn hs => ?_⟩
  · simp [evaluate_expression, hl, hr]
  · simp [evaluate_expression, hl, hr]
  · simp only [evaluate_expression, hl, hr]
    cases vl <;> cases vr <;> try rfl
    · exact absurd ⟨_, _, rfl, rfl⟩ hs
    · exact absurd ⟨_, _, rfl, rfl⟩ hn

/-- Witness for C4: string concatenation and a mixed Number/String failure. -/
theorem add_overload_spec_witness :
    evaluate_expression (.add (.string "foo") (.string "bar")) [] =
      .ok (.string "foobar") ∧
    evaluate_expression (.add (.number 1) (.string "bar")) [] =
      .error (.typeError "Cannot add these types") := by
  constructor
  · exact (add_overload_spec (.string "foo") (.string "bar") []).2.1 "foo" "bar" rfl rfl
  · exact (add_overload_spec (.number 1) (.string "bar") []).2.2 (.number 1)
      (.string "bar") rfl rfl (fun ⟨_, _, _, hb⟩ => nomatch hb)
      (fun ⟨_, _, ha, _⟩ => nomatch ha)

/-- C6: Equal/NotEqual report structural equality exactly for same-variant
String/Number/Boolean/Null pairs and report false/true (no error) for every
other pairing, while the four ordering comparisons succeed only on a pair of
Numbers and fail with TypeError otherwise. -/
theorem equality_vs_ordering_spec (l r : Expression) (facts : Facts)
    (vl vr : FactValue)
    (hl : evaluate_expression l facts = .ok vl)
    (hr : evaluate_expression r facts = .ok vr) :
    evaluate_expression (.equal l r) facts = .ok (.boolean (values_equal vl vr)) ∧
    evaluate_expression (.notEqual l r) facts = .ok (.boolean (!values_equal vl vr)) ∧
    (values_equal vl vr = true ↔ vl = vr ∧ isPrimitive vl = true) ∧
    (∀ a b : ℚ, vl = .number a → vr = .number b →
      evaluate_expression (.lessThan l r) facts = .ok (.boolean (decide (a < b))) ∧
      evaluate_expression (.lessEqual l r) facts = .ok (.boolean (decide (a ≤ b))) ∧
      evaluate_expression (.greaterThan l r) facts = .ok (.boolean (decide (a > b))) ∧
      evaluate_expression (.greaterEqual l r) facts = .ok (.boolean (decide (a ≥ b)))) ∧
    ((¬ ∃ a b : ℚ, vl = .number a ∧ vr = .number b) →
      evaluate_expression (.lessThan l r) facts =
        .error (.typeError "Cannot compare these types") ∧
      evaluate_expression (.lessEqual l r) facts =
        .error (.typeError "Cannot compare these types") ∧
      evaluate_expression (.greaterThan l r) facts =
        .error (.typeError "Cannot compare these types") ∧
      evaluate_expression (.greaterEqual l r) facts =
        .error (.typeError "Cannot compare these types")) := by
  refine ⟨?_, ?_, ?_, ?_, ?_⟩
  · simp [evaluate_expression, hl, hr]
  · simp [evaluate_expression, hl, hr]
  · cases vl <;> cases vr <;> simp [values_equal, isPrimitive]
  · rintro a b rfl rfl
    refine ⟨?_, ?_, ?_, ?_⟩ <;> simp [evaluate_expression, hl, hr]
  · intro hnn
    refine ⟨?_, ?_, ?_, ?_⟩ <;>
      · simp only [evaluate_expression, hl, hr]
        cases vl <;> cases vr <;> try rfl
        all_goals exact absurd ⟨_, _, rfl, rfl⟩ hnn

/-- Witness for C6 at a mismatched String/Number pairing. -/
theorem equality_vs_ordering_spec_witness :
    evaluate_expression (.equal (.string "x") (.number 1)) [] =
      .ok (.boolean false) ∧
    evaluate_expression (.notEqual (.string "x") (.number 1)) [] =
      .ok (.boolean true) ∧
    evaluate_expression (.lessThan (.string "x") (.number 1)) [] =
      .error (.typeError "Cannot compare these types") := by
  have h := equality_vs_ordering_spec (.string "x") (.number 1) []
    (.string "x") (.number 1) rfl rfl
  exact ⟨h.1, h.2.1, (h.2.2.2.2 (fun ⟨_, _, ha, _⟩ => nomatch ha)).1⟩

/-- C7: And/Or evaluate both operands unconditionally — an error in either
operand is the result even when the other operand already fixes the
truthiness — and on success they return the Boolean combination of the two
operand truthinesses, never an original operand value; Not returns the
negated truthiness of its operand. -/
theorem logical_eager_spec (l r : Expression) (facts : Facts) :
    (∀ vl vr : FactValue, evaluate_expression l facts = .ok vl →
      evaluate_expression r facts = .ok vr →
      evaluate_expression (.and l r) facts =
        .ok (.boolean (vl.is_truthy && vr.is_truthy)) ∧
      evaluate_expression (.or l r) facts =
        .ok (.boolean (vl.is_truthy || vr.is_truthy))) ∧
    (∀ e : EngineError, evaluate_expression l facts = .error e →
      evaluate_expression (.and l r) facts = .error e ∧
      evaluate_expression (.or l r) facts = .error e) ∧
    (∀ (vl : FactValue) (e : EngineError),
      evaluate_expression l facts = .ok vl →
      evaluate_expression r facts = .error e →
      evaluate_expression (.and l r) facts = .error e ∧
      evaluate_expression (.or l r) facts = .error e) ∧
    (∀ v : FactValue, evaluate_expression l facts = .ok v →
      evaluate_expression (.not l) facts = .ok (.boolean (!v.is_truthy))) := by
  refine ⟨fun vl vr hl hr => ?_, fun e hl => ?_, fun vl e hl hr => ?_, fun v hl => ?_⟩
  · constructor <;> simp [evaluate_expression, hl, hr]
  · constructor <;> simp [evaluate_expression, hl]
  · constructor <;> simp [evaluate_expression, hl, hr]
  · simp [evaluate_expression, hl]

/-- Witness for C7: a falsy left operand does not shield an erroring right
operand of And. -/
theorem logical_eager_spec_witness :
    evaluate_expression (.and (.boolean false) (.divide (.number 1) (.number 0))) [] =
      .error .divisionByZero := by
  exact ((logical_eager_spec (.boolean false) (.divide (.number 1) (.number 0)) []).2.2.1
    (.boolean false) .divisionByZero rfl rfl).1

/-- C10: Equal on two Object operands (or two Array operands) is
Boolean(false) and NotEqual Boolean(true), even for structurally identical
values: `values_equal` never applies structural equality to Object or
Array. -/
theorem object_array_never_equal_spec (l r : Expression) (facts : Facts) :
    (∀ o1 o2, evaluate_expression l facts = .ok (.object o1) →
      evaluate_expression r facts = .ok (.object o2) →
      evaluate_expression (.equal l r) facts = .ok (.boolean false) ∧
      evaluate_expression (.notEqual l r) facts = .ok (.boolean true)) ∧
    (∀ a1 a2, evaluate_expression l facts = .ok (.array a1) →
      evaluate_expression r facts = .ok (.array a2) →
      evaluate_expression (.equal l r) facts = .ok (.boolean false) ∧
      evaluate_expression (.notEqual l r) facts = .ok (.boolean true)) := by
  constructor
  · intro o1 o2 hl hr
    constructor <;> simp [evaluate_expression, hl, hr, values_equal]
  · intro a1 a2 hl hr
    constructor <;> simp [evaluate_expression, hl, hr, values_equal]

/-- Witness for C10 on two structurally identical objects. -/
theorem object_array_never_equal_spec_witness :
    evaluate_expression
      (.equal (.var "o") (.var "o"))
      [("o", ⟨"o", .object [("k", .number 1)]⟩)] = .ok (.boolean false) := by
  exact ((object_array_never_equal_spec (.var "o") (.var "o")
    [("o", ⟨"o", .object [("k", .number 1)]⟩)]).1 [("k", .number 1)] [("k", .number 1)]
    rfl rfl).1

/-! ## Association-list lemmas -/

theorem assocGet_cons {β : Type} (k0 : String) (v0 : β) (rest : List (String × β))
    (k : String) :
    assocGet ((k0, v0) :: rest) k = if k0 = k then some v0 else assocGet rest k := rfl

theorem assocGet_eq_none_iff {β : Type} (l : List (String × β)) (k : String) :
    assocGet l k = none ↔ k ∉ l.map Prod.fst := by
  induction l with
  | nil => simp [assocGet]
  | cons p rest ih =>
    obtain ⟨k0, v0⟩ := p
    rw [assocGet_cons]
    by_cases h : k0 = k
    · subst h
      simp
    · simp only [if_neg h, List.map_cons, List.mem_cons, ih]
      constructor
      · intro hnone hor
        rcases hor with h' | h'
        · exact h h'.symm
        · exact hnone h'
      · exact fun hni hm => hni (Or.inr hm)

theorem assocGet_append {β : Type} (l1 l2 : List (String × β)) (k : String) :
    assocGet (l1 ++ l2) k =
      match assocGet l1 k with
      | some v => some v
      | none => assocGet l2 k := by
  induction l1 with
  | nil => simp [assocGet]
  | cons p rest ih =>
    obtain ⟨k0, v0⟩ := p
    by_cases h : k0 = k <;> simp [assocGet_cons, h, ih]

theorem assocInsert_of_none {β : Type} {l : List (String × β)} {k : String}
    (h : assocGet l k = none) (v : β) : assocInsert l k v = l ++ [(k, v)] := by
  induction l with
  | nil => rfl
  | cons p rest ih =>
    obtain ⟨k0, v0⟩ := p
    rw [assocGet_cons] at h
    by_cases hk : k0 = k
    · simp [hk] at h
    · simp only [hk, if_false] at h
      simp [assocInsert, hk, ih h]

theorem assocRemove_keys_sublist {β : Type} (l : List (String × β)) (k : String) :
    ((assocRemove l k).map Prod.fst).Sublist (l.map Prod.fst) := by
  induction l with
  | nil => simp [assocRemove]
  | cons p rest ih =>
    obtain ⟨k0, v0⟩ := p
    by_cases h : k0 = k
    · simp [assocRemove, h]
    · simpa [assocRemove, h] using ih

theorem assocGet_assocRemove_self {β : Type} {l : List (String × β)} {k : String}
    (hnd : (l.map Prod.fst).Nodup) : assocGet (assocRemove l k) k = none := by
  induction l with
  | nil => rfl
  | cons p rest ih =>
    obtain ⟨k0, v0⟩ := p
    simp only [List.map_cons, List.nodup_cons] at hnd
    by_cases h : k0 = k
    · subst h
      rw [assocRemove]
      simp only [if_pos rfl]
      rw [assocGet_eq_none_iff]
      exact hnd.1
    · rw [assocRemove]
      simp only [if_neg h]
      rw [assocGet_cons, if_neg h]
      exact ih hnd.2

theorem assocGet_assocRemove_other {β : Type} (l : List (String × β)) {k k' : String}
    (hne : k' ≠ k) : assocGet (assocRemove l k) k' = assocGet l k' := by
  induction l with
  | nil => rfl
  | cons p rest ih =>
    obtain ⟨k0, v0⟩ := p
    by_cases h : k0 = k
    · subst h
      have hne' : k0 ≠ k' := fun hk => hne hk.symm
      simp [assocRemove, assocGet_cons, hne']
    · by_cases h' : k0 = k' <;> simp [assocRemove, h, assocGet_cons, h', hne, ih]

theorem assocGet_map_shift {β γ : Type} (l : List (String × β)) (f : β → γ)
    (k : String) :
    assocGet (l.map (fun p => (p.1, f p.2))) k = (assocGet l k).map f := by
  induction l with
  | nil => rfl
  | cons p rest ih =>
    obtain ⟨k0, v0⟩ := p
    by_cases h : k0 = k <;> simp [assocGet_cons, h, ih]

theorem map_fst_map_shift {β γ : Type} (l : List (String × β)) (f : β → γ) :
    (l.map (fun p => (p.1, f p.2))).map Prod.fst = l.map Prod.fst := by
  simp [List.map_map, Function.comp_def]

/-! ## Knowledge-base invariant preservation -/

theorem wf_new : KnowledgeBase.new.Wf := by
  refine ⟨by simp [KnowledgeBase.new], ?_, ?_⟩
  · intro name i h
    simp [KnowledgeBase.new, assocGet] at h
  · intro i r h
    simp [KnowledgeBase.new] at h

theorem add_rule_of_some {kb : KnowledgeBase} {rule : Rule}
    (h : (assocGet kb.rule_index rule.name).isSome) :
    kb.add_rule rule = (.error ("Rule '" ++ rule.name ++ "' already exists"), kb) := by
  simp [KnowledgeBase.add_rule, h]

theorem add_rule_of_none {kb : KnowledgeBase} {rule : Rule}
    (h : assocGet kb.rule_index rule.name = none) :
    kb.add_rule rule =
      (.ok (), ⟨kb.rules ++ [rule],
        kb.rule_index ++ [(rule.name, kb.rules.length)]⟩) := by
  simp [KnowledgeBase.add_rule, h, assocInsert_of_none h]

theorem remove_rule_of_found {kb : KnowledgeBase} {name : String} {index : Nat}
    {rule : Rule} (hidx : assocGet kb.rule_index name = some index)
    (hat : kb.rules[index]? = some rule) :
    kb.remove_rule name =
      (some rule,
        ⟨kb.rules.eraseIdx index,
         (assocRemove kb.rule_index name).map
           (fun p => (p.1, shiftDown index p.2))⟩) := by
  simp [KnowledgeBase.remove_rule, hidx, hat]

theorem wf_mk (rules : List Rule) (ridx : List (String × Nat))
    (hnd : (ridx.map Prod.fst).Nodup)
    (h1 : ∀ name i, assocGet ridx name = some i →
      ∃ r, rules[i]? = some r ∧ r.name = name)
    (h2 : ∀ i r, rules[i]? = some r → assocGet ridx r.name = some i) :
    KnowledgeBase.Wf ⟨rules, ridx⟩ := ⟨hnd, h1, h2⟩

theorem wf_add_rule {kb : KnowledgeBase} (h : kb.Wf) (rule : Rule) :
    (kb.add_rule rule).2.Wf := by
  obtain ⟨hnd, h1, h2⟩ := h
  cases hx : assocGet kb.rule_index rule.name with
  | some v =>
    rw [add_rule_of_some (by rw [hx]; rfl)]
    exact ⟨hnd, h1, h2⟩
  | none =>
    have hnone := hx
    rw [add_rule_of_none hnone]
    refine wf_mk _ _ ?_ ?_ ?_
    · simp only [List.map_append, List.map_cons, List.map_nil]
      rw [List.nodup_append]
      refine ⟨hnd, List.nodup_singleton _, ?_⟩
      intro x hx hx'
      simp at hx'
      subst hx'
      exact (assocGet_eq_none_iff _ _).mp hnone hx
    · intro name i hget
      rw [assocGet_append] at hget
      cases hx : assocGet kb.rule_index name with
      | some j =>
        rw [hx] at hget
        simp only [] at hget
        cases hget
        obtain ⟨r, hr, hname⟩ := h1 name i hx
        have hlt : i < kb.rules.length := (List.getElem?_eq_some_iff.mp hr).1
        exact ⟨r, by rw [List.getElem?_append_left hlt]; exact hr, hname⟩
      | none =>
        rw [hx] at hget
        simp only [assocGet_cons, assocGet] at hget
        by_cases hn : rule.name = name
        · rw [if_pos hn] at hget
          cases hget
          subst hn
          exact ⟨rule, List.getElem?_concat_length _ _, rfl⟩
        · rw [if_neg hn] at hget
          cases hget
    · intro i r hget
      rcases Nat.lt_or_ge i kb.rules.length with hlt | hge
      · rw [List.getElem?_append_left hlt] at hget
        have := h2 i r hget
        rw [assocGet_append, this]
      · rw [List.getElem?_append_right hge] at hget
        have hi : i - kb.rules.length = 0 := by
          cases hx : i - kb.rules.length with
          | zero => rfl
          | succ m => rw [hx] at hget; simp at hget
        rw [hi] at hget
        simp at hget
        subst hget
        have hieq : i = kb.rules.length := by omega
        subst hieq
        rw [assocGet_append, hnone]
        simp [assocGet_cons]

theorem wf_remove_rule {kb : KnowledgeBase} (h : kb.Wf) (name : String) :
    (kb.remove_rule name).2.Wf := by
  obtain ⟨hnd, h1, h2⟩ := h
  cases hidx : assocGet kb.rule_index name with
  | none =>
    have : kb.remove_rule name = (none, kb) := by
      simp [KnowledgeBase.remove_rule, hidx]
    rw [this]
    exact ⟨hnd, h1, h2⟩
  | some index =>
    cases hat : kb.rules[index]? with
    | none =>
      have : kb.remove_rule name = (none, kb) := by
        simp [KnowledgeBase.remove_rule, hidx, hat]
      rw [this]
      exact ⟨hnd, h1, h2⟩
    | some rule =>
      rw [remove_rule_of_found hidx hat]
      have hrulename : rule.name = name := by
        obtain ⟨r, hr, hname⟩ := h1 name index hidx
        rw [hat] at hr
        cases hr
        exact hname
      refine wf_mk _ _ ?_ ?_ ?_
      · rw [map_fst_map_shift]
        exact hnd.sublist (assocRemove_keys_sublist _ _)
      · intro n i hget
        rw [assocGet_map_shift] at hget
        cases hx : assocGet (assocRemove kb.rule_index name) n with
        | none => rw [hx] at hget; cases hget
        | some j =>
          rw [hx] at hget
          simp only [Option.map_some'] at hget
          cases hget
          have hne : n ≠ name := by
            intro hn
            subst hn
            rw [assocGet_assocRemove_self hnd] at hx
            cases hx
          rw [assocGet_assocRemove_other _ hne] at hx
          obtain ⟨r, hr, hname⟩ := h1 n j hx
          have hjne : j ≠ index := by
            intro hj
            subst hj
            rw [hat] at hr
            cases hr
            exact hne (hname ▸ hrulename)
          rcases Nat.lt_or_ge j index with hlt | hge
          · have hs : shiftDown index j = j := by
              unfold shiftDown
              rw [if_neg (by omega)]
            rw [hs]
            exact ⟨r, by rw [List.getElem?_eraseIdx_of_lt _ _ _ hlt]; exact hr, hname⟩
          · have hgt : index < j := by omega
            have hs : shiftDown index j = j - 1 := by
              unfold shiftDown
              rw [if_pos hgt]
            rw [hs]
            refine ⟨r, ?_, hname⟩
            rw [List.getElem?_eraseIdx_of_ge _ _ _ (by omega)]
            have hj : j - 1 + 1 = j := by omega
            rw [hj]
            exact hr
      · intro i r hget
        rcases Nat.lt_or_ge i index with hlt | hge
        · rw [List.getElem?_eraseIdx_of_lt _ _ _ hlt] at hget
          have hidx2 := h2 i r hget
          have hne : r.name ≠ name := by
            intro hn
            rw [hn, hidx] at hidx2
            cases hidx2
            omega
          rw [assocGet_map_shift, assocGet_assocRemove_other _ hne, hidx2]
          simp only [Option.map_some', shiftDown]
          rw [if_neg (by omega)]
        · rw [List.getElem?_eraseIdx_of_ge _ _ _ hge] at hget
          have hidx2 := h2 (i + 1) r hget
          have hne : r.name ≠ name := by
            intro hn
            rw [hn, hidx] at hidx2
            cases hidx2
            omega
          rw [assocGet_map_shift, assocGet_assocRemove_other _ hne, hidx2]
          simp only [Option.map_some', shiftDown]
          rw [if_pos (by omega)]
          simp

theorem wf_applyOp {kb : KnowledgeBase} (h : kb.Wf) (op : KBOp) :
    (applyOp kb op).Wf := by
  cases op with
  | add r => exact wf_add_rule h r
  | remove n => exact wf_remove_rule h n

theorem wf_foldl {kb : KnowledgeBase} (h : kb.Wf) (ops : List KBOp) :
    (ops.foldl applyOp kb).Wf := by
  induction ops generalizing kb with
  | nil => exact h
  | cons op rest ih => exact ih (wf_applyOp h op)

theorem wf_buildKB (ops : List KBOp) : (buildKB ops).Wf :=
  wf_foldl wf_new ops

theorem get_rule_of_mem {kb : KnowledgeBase} (h : kb.Wf) {r : Rule}
    (hr : r ∈ kb.rules) : kb.get_rule r.name = some r := by
  obtain ⟨i, hi⟩ := List.mem_iff_getElem?.mp hr
  rw [KnowledgeBase.get_rule, h.2.2 i r hi]
  exact hi

/-! ## Claims about the knowledge base -/

/-- C2: the salience-sorted view of a non-empty knowledge base contains all
stored rules (a permutation of them), in non-increasing salience order, and
the sort is stable: two rules with equal salience keep their relative
insertion order (every such in-order pair of the stored sequence is still an
in-order pair of the sorted sequence). -/
theorem sorted_by_salience_spec (kb : KnowledgeBase) (hne : kb.rules ≠ []) :
    kb.get_rules_sorted_by_salience.Perm kb.rules ∧
    kb.get_rules_sorted_by_salience.Pairwise
      (fun a b => b.salience ≤ a.salience) ∧
    (∀ a b : Rule, a.salience = b.salience → [a, b].Sublist kb.rules →
      [a, b].Sublist kb.get_rules_sorted_by_salience) := by
  have htrans : ∀ a b c : Rule,
      salience_desc a b → salience_desc b c → salience_desc a c := by
    intro a b c hab hbc
    simp only [salience_desc, decide_eq_true_eq] at *
    omega
  have htotal : ∀ a b : Rule, salience_desc a b || salience_desc b a := by
    intro a b
    simp only [salience_desc, Bool.or_eq_true, decide_eq_true_eq]
    omega
  refine ⟨List.mergeSort_perm _ _, ?_, ?_⟩
  · exact List.Pairwise.imp
      (fun h => by simpa [salience_desc] using h)
      (List.sorted_mergeSort htrans htotal kb.rules)
  · intro a b hsal hsub
    exact List.pair_sublist_mergeSort htrans htotal
      (by simp [salience_desc, hsal]) hsub

/-- Witness for C2 on a two-rule knowledge base. -/
theorem sorted_by_salience_spec_witness :
    (KnowledgeBase.mk
      [⟨"A", none, 5, .boolean true, []⟩, ⟨"B", none, 7, .boolean true, []⟩]
      [("A", 0), ("B", 1)]).rules ≠ [] ∧
    (KnowledgeBase.mk
      [⟨"A", none, 5, .boolean true, []⟩, ⟨"B", none, 7, .boolean true, []⟩]
      [("A", 0), ("B", 1)]).get_rules_sorted_by_salience.Perm
      (KnowledgeBase.mk
        [⟨"A", none, 5, .boolean true, []⟩, ⟨"B", none, 7, .boolean true, []⟩]
        [("A", 0), ("B", 1)]).rules :=
  ⟨by simp, (sorted_by_salience_spec _ (by simp)).1⟩

/-- C8: adding a rule whose name is already stored returns the duplicate-name
error and leaves the knowledge base unchanged: the same value, hence the same
length and the same result for every name lookup. -/
theorem add_duplicate_rejected_spec (ops : List KBOp) (rule : Rule)
    (hdup : ∃ r0 ∈ (buildKB ops).rules, r0.name = rule.name) :
    ((buildKB ops).add_rule rule).1 =
      .error ("Rule '" ++ rule.name ++ "' already exists") ∧
    ((buildKB ops).add_rule rule).2 = buildKB ops ∧
    ((buildKB ops).add_rule rule).2.len = (buildKB ops).len ∧
    ∀ name, ((buildKB ops).add_rule rule).2.get_rule name =
      (buildKB ops).get_rule name := by
  obtain ⟨r0, hmem, hname⟩ := hdup
  have hwf := wf_buildKB ops
  obtain ⟨i, hi⟩ := List.mem_iff_getElem?.mp hmem
  have hsome : assocGet (buildKB ops).rule_index rule.name = some i := by
    rw [← hname]
    exact hwf.2.2 i r0 hi
  have heq := @add_rule_of_some (buildKB ops) rule (by rw [hsome]; rfl)
  rw [heq]
  exact ⟨rfl, rfl, rfl, fun _ => rfl⟩

/-- Witness for C8: re-adding the name "A" is rejected without change. -/
theorem add_duplicate_rejected_spec_witness :
    ((buildKB [.add ⟨"A", none, 1, .boolean true, []⟩]).add_rule
        ⟨"A", none, 2, .boolean false, []⟩).1 =
      .error "Rule 'A' already exists" ∧
    ((buildKB [.add ⟨"A", none, 1, .boolean true, []⟩]).add_rule
        ⟨"A", none, 2, .boolean false, []⟩).2 =
      buildKB [.add ⟨"A", none, 1, .boolean true, []⟩] := by
  have h := add_duplicate_rejected_spec [.add ⟨"A", none, 1, .boolean true, []⟩]
    ⟨"A", none, 2, .boolean false, []⟩
    ⟨⟨"A", none, 1, .boolean true, []⟩, by decide, rfl⟩
  exact ⟨h.1, h.2.1⟩

/-- C9: for every knowledge base reachable by any sequence of add/remove
operations, the name-to-position index stays consistent with the backing
sequence — `get_rule` returns the rule actually bearing the queried name for
every stored rule — and a removal shifts the recorded index of every entry
positioned after the removed rule down by one while leaving earlier entries
unchanged. -/
theorem index_consistency_spec (ops : List KBOp) :
    (∀ r : Rule, r ∈ (buildKB ops).rules →
      (buildKB ops).get_rule r.name = some r) ∧
    (∀ name index n j,
      assocGet (buildKB ops).rule_index name = some index →
      assocGet (buildKB ops).rule_index n = some j → n ≠ name →
      assocGet ((buildKB ops).remove_rule name).2.rule_index n =
        some (if index < j then j - 1 else j)) := by
  have hwf := wf_buildKB ops
  constructor
  · intro r hr
    exact get_rule_of_mem hwf hr
  · intro name index n j hidx hj hne
    obtain ⟨rule, hat, _⟩ := hwf.2.1 name index hidx
    have h1 : assocGet ((assocRemove (buildKB ops).rule_index name).map
        (fun p => (p.1, shiftDown index p.2))) n = some (shiftDown index j) := by
      rw [assocGet_map_shift, assocGet_assocRemove_other _ hne, hj]
      rfl
    calc assocGet ((buildKB ops).remove_rule name).2.rule_index n
        = assocGet ((assocRemove (buildKB ops).rule_index name).map
            (fun p => (p.1, shiftDown index p.2))) n := by
          rw [remove_rule_of_found hidx hat]
      _ = some (shiftDown index j) := h1
      _ = some (if index < j then j - 1 else j) := rfl

/-- Witness for C9: remove the middle rule of three; the rule stored after it
is re-indexed and still found by name. -/
theorem index_consistency_spec_witness :
    (buildKB [.add ⟨"A", none, 1, .boolean true, []⟩,
              .add ⟨"B", none, 2, .boolean true, []⟩,
              .add ⟨"C", none, 3, .boolean true, []⟩,
              .remove "B"]).get_rule "C" =
      some ⟨"C", none, 3, .boolean true, []⟩ :=
  (index_consistency_spec [.add ⟨"A", none, 1, .boolean true, []⟩,
    .add ⟨"B", none, 2, .boolean true, []⟩,
    .add ⟨"C", none, 3, .boolean true, []⟩,
    .remove "B"]).1 ⟨"C", none, 3, .boolean true, []⟩ (by decide)

/-! ## Claims about the engine's execution pass -/

theorem run_actions_append {acts1 : List Expression} {facts facts2 : Facts}
    (h : run_actions acts1 facts = (.ok (), facts2)) (acts2 : List Expression) :
    run_actions (acts1 ++ acts2) facts = run_actions acts2 facts2 := by
  induction acts1 generalizing facts with
  | nil =>
    simp only [run_actions, Prod.mk.injEq, true_and] at h
    subst h
    rw [List.nil_append]
  | cons a rest ih =>
    simp only [run_actions, List.cons_append] at h ⊢
    cases hx : execute_action a facts with
    | error e =>
      rw [hx] at h
      exact absurd h (by simp)
    | ok facts3 =>
      rw [hx] at h
      exact ih h

theorem run_rules_append {rs1 : List Rule} {facts facts1 : Facts}
    {fired0 fired1 : List String}
    (h : run_rules rs1 facts fired0 = (.ok fired1, facts1)) (rs2 : List Rule) :
    run_rules (rs1 ++ rs2) facts fired0 = run_rules rs2 facts1 fired1 := by
  induction rs1 generalizing facts fired0 with
  | nil =>
    simp only [run_rules, Prod.mk.injEq, Except.ok.injEq] at h
    obtain ⟨h1, h2⟩ := h
    subst h1
    subst h2
    rw [List.nil_append]
  | cons r rest ih =>
    simp only [run_rules, List.cons_append] at h ⊢
    cases hg : evaluate_condition r.when_condition facts with
    | error e =>
      rw [hg] at h
      exact absurd h (by simp)
    | ok b =>
      rw [hg] at h
      cases b
      · exact ih h
      · cases hres : run_actions r.then_actions facts with
        | mk res facts3 =>
          cases res with
          | error e =>
            rw [hres] at h
            exact absurd h (by simp)
          | ok u =>
            rw [hres] at h
            exact ih h

/-- C1: an evaluator error while evaluating a rule's guard, or while
executing one of its actions, aborts `execute` with that typed error and no
`ExecutionResult`, and the caller's fact store holds exactly the mutations
applied before the failing step: everything the earlier successfully-fired
rules wrote, plus the failing rule's action mutations made before the
failing action — nothing is rolled back. -/
theorem abort_no_rollback_spec (kb : KnowledgeBase) (facts facts1 : Facts)
    (rs1 rs2 : List Rule) (r : Rule) (fired1 : List String)
    (hsplit : kb.get_rules_sorted_by_salience = rs1 ++ r :: rs2)
    (h1 : run_rules rs1 facts [] = (.ok fired1, facts1)) :
    (∀ e, evaluate_condition r.when_condition facts1 = .error e →
      RuleEngine.execute kb facts = (.error e, facts1)) ∧
    (∀ acts1 a acts2 facts2 e,
      r.then_actions = acts1 ++ a :: acts2 →
      evaluate_condition r.when_condition facts1 = .ok true →
      run_actions acts1 facts1 = (.ok (), facts2) →
      execute_action a facts2 = .error e →
      RuleEngine.execute kb facts = (.error e, facts2)) := by
  have hrun : run_rules kb.get_rules_sorted_by_salience facts [] =
      run_rules (r :: rs2) facts1 fired1 := by
    rw [hsplit]
    exact run_rules_append h1 _
  constructor
  · intro e hg
    rw [RuleEngine.execute, hrun]
    simp only [run_rules, hg]
  · intro acts1 a acts2 facts2 e hacts hg ha hfail
    rw [RuleEngine.execute, hrun]
    simp only [run_rules, hg]
    rw [hacts]
    have hact : run_actions (acts1 ++ a :: acts2) facts1 = (.error e, facts2) := by
      rw [run_actions_append ha]
      simp only [run_actions, hfail]
    rw [hact]

/-- Witness for C1: the first rule fires and writes the fact `x`; the second
rule's guard divides by zero; `execute` returns the typed error while `x`
stays written. -/
theorem abort_no_rollback_spec_witness :
    RuleEngine.execute
      ⟨[⟨"R1", none, 10, .boolean true, [.assignment "x" (.number 1)]⟩,
        ⟨"R2", none, 5, .divide (.number 1) (.number 0), []⟩],
       [("R1", 0), ("R2", 1)]⟩ [] =
      (.error .divisionByZero, [("x", ⟨"x", .number 1⟩)]) := by
  have hsplit : (KnowledgeBase.mk
      [⟨"R1", none, 10, .boolean true, [.assignment "x" (.number 1)]⟩,
       ⟨"R2", none, 5, .divide (.number 1) (.number 0), []⟩]
      [("R1", 0), ("R2", 1)]).get_rules_sorted_by_salience =
      [⟨"R1", none, 10, .boolean true, [.assignment "x" (.number 1)]⟩] ++
        ⟨"R2", none, 5, .divide (.number 1) (.number 0), []⟩ :: [] :=
    List.mergeSort_of_sorted (by decide)
  exact (abort_no_rollback_spec _ [] [("x", ⟨"x", .number 1⟩)] _ _ _ ["R1"]
    hsplit rfl).1 .divisionByZero rfl

/-! ## Claims about the condition parser -/

theorem hasSubAt_zero {cs pat : List Char} :
    hasSubAt cs pat 0 ↔ pat.isPrefixOf cs = true := by
  rw [hasSubAt, List.isPrefixOf_iff_prefix]
  constructor
  · rintro ⟨hlen, htake⟩
    rw [List.drop_zero] at htake
    rw [List.prefix_iff_eq_take]
    exact htake.symm
  · intro hpre
    refine ⟨by simpa using hpre.length_le, ?_⟩
    rw [List.drop_zero]
    exact (List.prefix_iff_eq_take.mp hpre).symm

theorem hasSubAt_cons_succ {c : Char} {rest pat : List Char} {q : Nat} :
    hasSubAt (c :: rest) pat (q + 1) ↔ hasSubAt rest pat q := by
  unfold hasSubAt
  rw [List.drop_succ_cons, List.length_cons]
  constructor
  · rintro ⟨h1, h2⟩
    exact ⟨by omega, h2⟩
  · rintro ⟨h1, h2⟩
    exact ⟨by omega, h2⟩

theorem findSub_some {cs pat : List Char} {p : Nat}
    (h : findSub cs pat = some p) : firstSubAt cs pat p := by
  induction cs generalizing p with
  | nil =>
    cases he : pat.isEmpty with
    | true =>
      simp only [findSub, he, if_true] at h
      cases h
      have hp : pat = [] := List.isEmpty_iff.mp he
      subst hp
      exact ⟨⟨by simp, by simp⟩, fun q hq => by omega⟩
    | false =>
      simp only [findSub, he, Bool.false_eq_true, if_false] at h
      exact Option.noConfusion h
  | cons c rest ih =>
    cases hpre : pat.isPrefixOf (c :: rest) with
    | true =>
      simp only [findSub, hpre, if_true] at h
      cases h
      exact ⟨hasSubAt_zero.mpr hpre, fun q hq => by omega⟩
    | false =>
      simp only [findSub, hpre, Bool.false_eq_true, if_false] at h
      cases hf : findSub rest pat with
      | none =>
        rw [hf] at h
        cases h
      | some q =>
        rw [hf] at h
        simp only [Option.map_some'] at h
        cases h
        obtain ⟨hhas, hmin⟩ := ih hf
        refine ⟨hasSubAt_cons_succ.mpr hhas, ?_⟩
        intro j hj
        cases j with
        | zero =>
          intro hz
          rw [hasSubAt_zero.mp hz] at hpre
          cases hpre
        | succ j' =>
          intro hs
          exact hmin j' (by omega) (hasSubAt_cons_succ.mp hs)

theorem findSub_none {cs pat : List Char} (h : findSub cs pat = none) :
    ∀ q, ¬ hasSubAt cs pat q := by
  induction cs with
  | nil =>
    intro q hq
    cases he : pat.isEmpty with
    | true =>
      simp only [findSub, he, if_true] at h
      exact Option.noConfusion h
    | false =>
      obtain ⟨h1, _⟩ := hq
      simp only [List.length_nil] at h1
      have hp : pat.length = 0 := by omega
      rw [List.length_eq_zero.mp hp] at he
      exact Bool.noConfusion (List.isEmpty_nil ▸ he)
  | cons c rest ih =>
    intro q hq
    cases hpre : pat.isPrefixOf (c :: rest) with
    | true =>
      simp only [findSub, hpre, if_true] at h
      exact Option.noConfusion h
    | false =>
      simp only [findSub, hpre, Bool.false_eq_true, if_false,
        Option.map_eq_none'] at h
      cases q with
      | zero =>
        rw [hasSubAt_zero.mp hq] at hpre
        cases hpre
      | succ q' => exact ih h q' (hasSubAt_cons_succ.mp hq)

theorem findSub_le {cs pat : List Char} {p : Nat}
    (h : findSub cs pat = some p) : p + pat.length ≤ cs.length :=
  (findSub_some h).1.1

theorem findSub_eq_some_of_firstSubAt {cs pat : List Char} {p : Nat}
    (h : firstSubAt cs pat p) : findSub cs pat = some p := by
  cases hf : findSub cs pat with
  | none => exact absurd h.1 (findSub_none hf p)
  | some q =>
    have h' := findSub_some hf
    rcases Nat.lt_trichotomy p q with hlt | heq | hgt
    · exact absurd h.1 (h'.2 p hlt)
    · rw [heq]
    · exact absurd h'.1 (h.2 q hgt)

theorem findSub_eq_none_of_no_sub {cs pat : List Char}
    (h : ∀ q, ¬ hasSubAt cs pat q) : findSub cs pat = none := by
  cases hf : findSub cs pat with
  | none => rfl
  | some q => exact absurd (findSub_some hf).1 (h q)

theorem trimChars_length_le (cs : List Char) :
    (trimChars cs).length ≤ cs.length := by
  unfold trimChars
  calc ((cs.dropWhile Char.isWhitespace).reverse.dropWhile
          Char.isWhitespace).reverse.length
      = ((cs.dropWhile Char.isWhitespace).reverse.dropWhile
          Char.isWhitespace).length := List.length_reverse _
    _ ≤ (cs.dropWhile Char.isWhitespace).reverse.length :=
        (List.dropWhile_sublist _).length_le
    _ = (cs.dropWhile Char.isWhitespace).length := List.length_reverse _
    _ ≤ cs.length := (List.dropWhile_sublist _).length_le

theorem parseCondF_congr (f1 : Nat) : ∀ (f2 : Nat) (cs : List Char),
    cs.length < f1 → cs.length < f2 → parseCondF f1 cs = parseCondF f2 cs := by
  induction f1 with
  | zero =>
    intro f2 cs h1 h2
    exact absurd h1 (Nat.not_lt_zero _)
  | succ n ih =>
    intro f2 cs h1 h2
    cases f2 with
    | zero => exact absurd h2 (Nat.not_lt_zero _)
    | succ m =>
      have htr := trimChars_length_le cs
      cases hand : findSub (trimChars cs) (" && ".data) with
      | some and_pos =>
        have hb : and_pos + 4 ≤ (trimChars cs).length := findSub_le hand
        simp only [parseCondF, hand]
        rw [ih m ((trimChars cs).take and_pos)
            (by rw [List.length_take]; omega) (by rw [List.length_take]; omega),
          ih m ((trimChars cs).drop (and_pos + 4))
            (by rw [List.length_drop]; omega) (by rw [List.length_drop]; omega)]
      | none =>
        cases hor : findSub (trimChars cs) (" || ".data) with
        | some or_pos =>
          have hb : or_pos + 4 ≤ (trimChars cs).length := findSub_le hor
          simp only [parseCondF, hand, hor]
          rw [ih m ((trimChars cs).take or_pos)
              (by rw [List.length_take]; omega) (by rw [List.length_take]; omega),
            ih m ((trimChars cs).drop (or_pos + 4))
              (by rw [List.length_drop]; omega) (by rw [List.length_drop]; omega)]
        | none => simp only [parseCondF, hand, hor]

theorem parseCondChars_eq_parseCondF {cs : List Char} {f : Nat}
    (hf : cs.length < f) : parseCondChars cs = parseCondF f cs := by
  unfold parseCondChars
  exact parseCondF_congr _ _ _ (Nat.lt_succ_self _) hf

theorem parseCondChars_and_split {cs : List Char} {p : Nat}
    (h : firstSubAt (trimChars cs) (" && ".data) p) :
    parseCondChars cs =
      match parseCondChars ((trimChars cs).take p),
          parseCondChars ((trimChars cs).drop (p + 4)) with
      | .ok l, .ok r => .ok (.and l r)
      | .error e, _ => .error e
      | .ok _, .error e => .error e := by
  have hfind := findSub_eq_some_of_firstSubAt h
  have hb : p + 4 ≤ (trimChars cs).length := findSub_le hfind
  have htr := trimChars_length_le cs
  have e1 : parseCondF cs.length ((trimChars cs).take p) =
      parseCondChars ((trimChars cs).take p) :=
    (parseCondChars_eq_parseCondF (by rw [List.length_take]; omega)).symm
  have e2 : parseCondF cs.length ((trimChars cs).drop (p + 4)) =
      parseCondChars ((trimChars cs).drop (p + 4)) :=
    (parseCondChars_eq_parseCondF (by rw [List.length_drop]; omega)).symm
  have hw : parseCondChars cs = parseCondF (cs.length + 1) cs := rfl
  cases hA : parseCondChars ((trimChars cs).take p) with
  | error e =>
    rw [hw]
    simp only [parseCondF, hfind, e1, hA]
  | ok l =>
    cases hB : parseCondChars ((trimChars cs).drop (p + 4)) with
    | error e =>
      rw [hw]
      simp only [parseCondF, hfind, e1, e2, hA, hB]
    | ok r =>
      rw [hw]
      simp only [parseCondF, hfind, e1, e2, hA, hB]

theorem parseCondChars_or_split {cs : List Char} {p : Nat}
    (hno : ∀ q, ¬ hasSubAt (trimChars cs) (" && ".data) q)
    (h : firstSubAt (trimChars cs) (" || ".data) p) :
    parseCondChars cs =
      match parseCondChars ((trimChars cs).take p),
          parseCondChars ((trimChars cs).drop (p + 4)) with
      | .ok l, .ok r => .ok (.or l r)
      | .error e, _ => .error e
      | .ok _, .error e => .error e := by
  have hnand := findSub_eq_none_of_no_sub hno
  have hfind := findSub_eq_some_of_firstSubAt h
  have hb : p + 4 ≤ (trimChars cs).length := findSub_le hfind
  have htr := trimChars_length_le cs
  have e1 : parseCondF cs.length ((trimChars cs).take p) =
      parseCondChars ((trimChars cs).take p) :=
    (parseCondChars_eq_parseCondF (by rw [List.length_take]; omega)).symm
  have e2 : parseCondF cs.length ((trimChars cs).drop (p + 4)) =
      parseCondChars ((trimChars cs).drop (p + 4)) :=
    (parseCondChars_eq_parseCondF (by rw [List.length_drop]; omega)).symm
  have hw : parseCondChars cs = parseCondF (cs.length + 1) cs := rfl
  cases hA : parseCondChars ((trimChars cs).take p) with
  | error e =>
    rw [hw]
    simp only [parseCondF, hnand, hfind, e1, hA]
  | ok l =>
    cases hB : parseCondChars ((trimChars cs).drop (p + 4)) with
    | error e =>
      rw [hw]
      simp only [parseCondF, hnand, hfind, e1, e2, hA, hB]
    | ok r =>
      rw [hw]
      simp only [parseCondF, hnand, hfind, e1, e2, hA, hB]

/-- C5 (corrected): `parse_condition` splits its trimmed input at the FIRST
occurrence of " && " (recursing on the two sides), checks " && " before
" || " (splitting at " || " only when no " && " occurs anywhere), and a text
with several occurrences of the same connective therefore parses
RIGHT-associatively: "a == 1 && b == 2 && c == 3" yields
And(a==1, And(b==2, c==3)), not the left-nested tree the original claim
states. -/
theorem parse_condition_connective_spec :
    (∀ (cs : List Char) (p : Nat), firstSubAt (trimChars cs) (" && ".data) p →
      parseCondChars cs =
        match parseCondChars ((trimChars cs).take p),
            parseCondChars ((trimChars cs).drop (p + 4)) with
        | .ok l, .ok r => .ok (.and l r)
        | .error e, _ => .error e
        | .ok _, .error e => .error e) ∧
    (∀ (cs : List Char) (p : Nat),
      (∀ q, ¬ hasSubAt (trimChars cs) (" && ".data) q) →
      firstSubAt (trimChars cs) (" || ".data) p →
      parseCondChars cs =
        match parseCondChars ((trimChars cs).take p),
            parseCondChars ((trimChars cs).drop (p + 4)) with
        | .ok l, .ok r => .ok (.or l r)
        | .error e, _ => .error e
        | .ok _, .error e => .error e) ∧
    GrlParser.parse_condition "a == 1 || b == 2 && c == 3" =
      .ok (.and (.or (.equal (.var "a") (.number 1))
          (.equal (.var "b") (.number 2)))
        (.equal (.var "c") (.number 3))) ∧
    GrlParser.parse_condition "a == 1 && b == 2 && c == 3" =
      .ok (.and (.equal (.var "a") (.number 1))
        (.and (.equal (.var "b") (.number 2))
          (.equal (.var "c") (.number 3)))) := by
  refine ⟨?_, ?_, ?_, ?_⟩
  · intro cs p h
    exact parseCondChars_and_split h
  · intro cs p hno h
    exact parseCondChars_or_split hno h
  · decide
  · decide

/-- Witness for the corrected C5 at the text "x == 1 && y == 2", whose first
" && " stands at position 6. -/
theorem parse_condition_connective_spec_witness :
    firstSubAt (trimChars "x == 1 && y == 2".data) (" && ".data) 6 ∧
    parseCondChars "x == 1 && y == 2".data =
      match parseCondChars ((trimChars "x == 1 && y == 2".data).take 6),
          parseCondChars ((trimChars "x == 1 && y == 2".data).drop 10) with
      | .ok l, .ok r => .ok (.and l r)
      | .error e, _ => .error e
      | .ok _, .error e => .error e :=
  ⟨by decide,
    parse_condition_connective_spec.1 "x == 1 && y == 2".data 6 (by decide)⟩

/-- Counterexample to C5 as stated: the three-comparison conjunction parses
to the right-nested tree, not the left-nested one the claim predicts. -/
theorem parse_condition_left_assoc_counterexample :
    GrlParser.parse_condition "a == 1 && b == 2 && c == 3" =
      .ok (.and (.equal (.var "a") (.number 1))
        (.and (.equal (.var "b") (.number 2))
          (.equal (.var "c") (.number 3)))) ∧
    GrlParser.parse_condition "a == 1 && b == 2 && c == 3" ≠
      .ok (.and (.and (.equal (.var "a") (.number 1))
          (.equal (.var "b") (.number 2)))
        (.equal (.var "c") (.number 3))) := by
  constructor
  · decide
  · decide

end Runes
